import Mathlib

/-!
Verification of the response-normalization / repair pipeline of the
ProductAnalysis browser extension (`src/extension/src/background.ts`).

Strings are modelled as `List Char` (`Str`), JavaScript runtime values as the
inductive type `JSVal`, and JS numbers as `ℚ` (exact rational arithmetic; the
pipeline only adds, subtracts, halves and compares prices, so `ℚ` is a faithful
idealization of the double arithmetic actually performed on the scraped
integer-ish prices).

Definitions are transcribed from the TypeScript source; definitions whose name
starts with `spec` are transcribed from the specification's words instead and
compared against the source-derived ones in the theorems.
-/

abbrev Str := List Char

/-- The backtick character (0x60). -/
def tickChar : Char := Char.ofNat 96

/-- The opening curly brace character (0x7b). -/
def lbraceChar : Char := Char.ofNat 123

/-- The closing curly brace character (0x7d). -/
def rbraceChar : Char := Char.ofNat 125

/-- The opening square bracket character. -/
def lbrackChar : Char := '['

/-- The closing square bracket character. -/
def rbrackChar : Char := ']'

/-- The double-quote character (0x22). -/
def quoteChar : Char := Char.ofNat 34

/-- The backslash character (0x5c). -/
def bslashChar : Char := Char.ofNat 92

/-- JavaScript's WhiteSpace ∪ LineTerminator class, as used by `String.trim`
and by the regexp class `\s`. -/
def isJsWs (c : Char) : Bool :=
  let n := c.toNat
  (9 ≤ n && n ≤ 13) || n == 32 || n == 160 || n == 0x1680 ||
    (0x2000 ≤ n && n ≤ 0x200A) || n == 0x2028 || n == 0x2029 || n == 0x202F ||
    n == 0x205F || n == 0x3000 || n == 0xFEFF

/-- JS `String.prototype.trim`: strip `isJsWs` characters from both ends. -/
def trimJS (s : Str) : Str :=
  ((s.dropWhile isJsWs).reverse.dropWhile isJsWs).reverse

/-- JS `String.prototype.toLowerCase` on one character, for the alphabets the
repository actually uses (ASCII and Russian Cyrillic). -/
def jsToLower (c : Char) : Char :=
  let n := c.toNat
  if 65 ≤ n && n ≤ 90 then Char.ofNat (n + 32)
  else if 0x410 ≤ n && n ≤ 0x42F then Char.ofNat (n + 0x20)
  else if n == 0x401 then Char.ofNat 0x451
  else c

/-- A JavaScript runtime value, as far as the pipeline inspects values:
`null`, `undefined`, booleans, numbers, strings, arrays and plain objects
(ordered field lists; JS objects have unique keys). -/
inductive JSVal where
  | null
  | undef
  | bool (b : Bool)
  | num (q : ℚ)
  | str (s : Str)
  | arr (elems : List JSVal)
  | obj (fields : List (Str × JSVal))
deriving Inhabited

/-- Decimal digit characters of a natural number. -/
def natToStr (n : Nat) : Str := Nat.toDigits 10 n

/-- Decimal rendering of an integer. -/
def intToStr (i : Int) : Str :=
  if i < 0 then '-' :: natToStr i.natAbs else natToStr i.natAbs

/-- Decimal digits (at most `fuel` of them) of the fractional part `num/den`. -/
def fracDigits : Nat → Nat → Nat → Str
  | 0, _, _ => []
  | _, 0, _ => []
  | fuel + 1, num, den =>
    let d := num * 10 / den
    let r := num * 10 % den
    Char.ofNat (48 + d) :: fracDigits fuel r den

/-- JS number-to-string. Exact for integral values (the only values the
modelled pipeline ever stringifies); non-integral values are rendered as a
decimal expansion of at most 16 fractional digits, which agrees with JS for
the short terminating decimals produced by the scraper. -/
def jsNumToStr (q : ℚ) : Str :=
  if q.den = 1 then intToStr q.num
  else
    (if q.num < 0 then ['-'] else []) ++
      natToStr (q.num.natAbs / q.den) ++
      '.' :: fracDigits 16 (q.num.natAbs % q.den) q.den

/-- First field of a JS object named `k` (JS property lookup; objects built by
the modelled code have unique keys). -/
def lookupField (fields : List (Str × JSVal)) (k : Str) : Option JSVal :=
  (fields.find? (fun e => e.1 == k)).map (fun e => e.2)

/-- The key `"text"`. -/
def textKey : Str := "text".toList

mutual

/-- JS `String(v)` coercion: `ToString` of a primitive, `Array.prototype.join(',')`
for arrays, and `"[object Object]"` for plain objects. -/
def jsStringCoerce : JSVal → Str
  | .null => "null".toList
  | .undef => "undefined".toList
  | .bool true => "true".toList
  | .bool false => "false".toList
  | .num q => jsNumToStr q
  | .str s => s
  | .arr elems => List.intercalate [','] (jsCoerceItems elems)
  | .obj _ => "[object Object]".toList

/-- Element coercion used by `Array.prototype.join`: `null`/`undefined`
contribute the empty string. -/
def jsCoerceItems : List JSVal → List Str
  | [] => []
  | .null :: rest => [] :: jsCoerceItems rest
  | .undef :: rest => [] :: jsCoerceItems rest
  | v :: rest => jsStringCoerce v :: jsCoerceItems rest

end

/-- One chunk's contribution inside `normalizeContent`'s array branch
(`background.ts` lines 85–91): a string chunk is kept as is, an object chunk
with a string `text` field contributes that field, anything else contributes
the empty string. -/
def chunkFrag : JSVal → Str
  | .str s => s
  | .obj fields =>
    match lookupField fields textKey with
    | some (.str t) => t
    | _ => []
  | _ => []

/-- `normalizeContent` (`background.ts` lines 81–100). -/
def normalizeContent : JSVal → Str
  | .str s => trimJS s
  | .arr chunks =>
    trimJS (List.intercalate ['\n']
      (((chunks.map chunkFrag)).filter (fun f => !f.isEmpty)))
  | .obj fields =>
    match lookupField fields textKey with
    | some (.str t) => t
    | _ => trimJS (jsStringCoerce (.obj fields))
  | .null => []
  | .undef => []
  | .bool b => trimJS (jsStringCoerce (.bool b))
  | .num q => trimJS (jsStringCoerce (.num q))

/-- The `Product` record scraped from the page (`content.ts`). -/
structure Product where
  manufacturer : Str
  partNumber : Str
  description : Str
  supplier : Str
  price : ℚ
  currency : Str
  deliveryDate : Str
  warehouseType : Str
  volume : Option ℚ
  pricePerLiter : Option ℚ
deriving DecidableEq, Inhabited

/-- Stable ascending insertion into a sorted list of rationals. -/
def insertSorted (x : ℚ) : List ℚ → List ℚ
  | [] => [x]
  | y :: ys => if x ≤ y then x :: y :: ys else y :: insertSorted x ys

/-- Ascending numeric sort, the effect of JS `[...prices].sort((a, b) => a - b)`
(on a list of rationals the ascending reordering is unique, so any correct
sort gives the same list). -/
def sortAsc (l : List ℚ) : List ℚ := l.foldr insertSorted []

/-- `median` (`background.ts` lines 104–108): middle element for odd length,
average of the two middle elements for even length. -/
def median (prices : List ℚ) : ℚ :=
  let sorted := sortAsc prices
  let mid := sorted.length / 2
  if sorted.length % 2 ≠ 0 then sorted.getD mid 0
  else (sorted.getD (mid - 1) 0 + sorted.getD mid 0) / 2

/-- The manufacturer grouping key (`background.ts` line 117):
`(p.manufacturer || 'Неизвестно').trim().toLowerCase()`. The empty (falsy)
manufacturer string is replaced by the label `Неизвестно` before trimming and
lowercasing. -/
def manufacturerKey (p : Product) : Str :=
  (trimJS (if p.manufacturer.isEmpty then "Неизвестно".toList else p.manufacturer)).map jsToLower

/-- One step of the `reduce` on line 127: keep the offer whose price is
strictly closer to the median, the earlier offer on ties. -/
def pickCloser (med : ℚ) (best p : Product) : Product :=
  if |p.price - med| < |best.price - med| then p else best

/-- The representative of one manufacturer group (`background.ts` lines
126–129): `offers.reduce((best, p) => ...)` seeded with the first offer,
comparing distances to the group's price median. Groups built by the code are
never empty; the `[]` case is unreachable. -/
def groupRep (g : List Product) : Product :=
  match g with
  | [] => default
  | b :: t => t.foldl (pickCloser (median (g.map (fun p => p.price)))) b

/-- One step of the insertion-ordered `Map` building (`background.ts` lines
116–120): append the offer to its key's group, or append a new group at the
end. -/
def upsertGroup (groups : List (Str × List Product)) (p : Product) :
    List (Str × List Product) :=
  if groups.any (fun e => e.1 == manufacturerKey p) then
    groups.map (fun e =>
      if e.1 == manufacturerKey p then (e.1, e.2 ++ [p]) else e)
  else groups ++ [(manufacturerKey p, [p])]

/-- The insertion-ordered manufacturer `Map` of `truncateProducts`. -/
def buildGroups (products : List Product) : List (Str × List Product) :=
  products.foldl upsertGroup []

/-- `MAX_MANUFACTURERS` (`background.ts` line 102). -/
def MAX_MANUFACTURERS : Nat := 10

/-- `truncateProducts` (`background.ts` lines 110–135): keep positive-price
offers, group them by `manufacturerKey` in insertion order, take each group's
closest-to-median representative, and truncate to `MAX_MANUFACTURERS`. -/
def truncateProducts (products : List Product) : List Product :=
  let withPrice := products.filter (fun p => decide (0 < p.price))
  let groups := buildGroups withPrice
  (groups.map (fun e => groupRep e.2)).take MAX_MANUFACTURERS

/-- Does `s` start with the (case-insensitive) fence opener ```` ```json ````,
i.e. can the regexp `/```json\s*/gi` match at the head of `s`? -/
def matchFenceJson (s : Str) : Bool :=
  (s[0]? == some tickChar) && (s[1]? == some tickChar) && (s[2]? == some tickChar) &&
    ((s[3]?.map jsToLower) == some 'j') && ((s[4]?.map jsToLower) == some 's') &&
    ((s[5]?.map jsToLower) == some 'o') && ((s[6]?.map jsToLower) == some 'n')

/-- Does `s` start with a bare fence ```` ``` ````, i.e. can the regexp
`/```\s*/g` match at the head of `s`? -/
def matchFence3 (s : Str) : Bool :=
  (s[0]? == some tickChar) && (s[1]? == some tickChar) && (s[2]? == some tickChar)

/-- Fuelled scan of `raw.replace(/```json\s*/gi, '')`: left-to-right,
non-overlapping; a match consumes the seven fence characters and the greedy
`\s*` run after them. `fuel ≥ length` always suffices (each step consumes at
least one character). -/
def stripFJ : Nat → Str → Str
  | 0, s => s
  | _, [] => []
  | fuel + 1, c :: rest =>
    if matchFenceJson (c :: rest) then
      stripFJ fuel (((c :: rest).drop 7).dropWhile isJsWs)
    else c :: stripFJ fuel rest

/-- `raw.replace(/```json\s*/gi, '')`. -/
def stripFenceJson (s : Str) : Str := stripFJ s.length s

/-- Fuelled scan of `.replace(/```\s*/g, '')`. -/
def stripF3 : Nat → Str → Str
  | 0, s => s
  | _, [] => []
  | fuel + 1, c :: rest =>
    if matchFence3 (c :: rest) then
      stripF3 fuel (((c :: rest).drop 3).dropWhile isJsWs)
    else c :: stripF3 fuel rest

/-- `.replace(/```\s*/g, '')`. -/
def stripFence3 (s : Str) : Str := stripF3 s.length s

/-- The two sequential fence-stripping replaces of `repairJson`
(`background.ts` line 139), before the `.trim()`. -/
def stripFences (s : Str) : Str := stripFence3 (stripFenceJson s)

/-- JS `s.indexOf(c)` as an `Option`: index of the first occurrence of `c`. -/
def jsIndexOf (s : Str) (c : Char) : Option Nat :=
  match s with
  | [] => none
  | a :: rest => if a = c then some 0 else (jsIndexOf rest c).map (fun i => i + 1)

/-- Index of the last `}` in `s` (JS `s.lastIndexOf('}')`, as `Option`). -/
def lastBraceIdx (s : Str) : Option Nat :=
  match jsIndexOf s.reverse rbraceChar with
  | some j => some (s.length - 1 - j)
  | none => none

/-- Lines 142–143 of `repairJson`: `const start = s.indexOf('{'); if (start > 0)
s = s.slice(start);`. -/
def sliceFromBrace (s0 : Str) : Str :=
  match jsIndexOf s0 lbraceChar with
  | some i => if 0 < i then s0.drop i else s0
  | none => s0

/-- Lines 147–160 of `repairJson`: if the string does not end in `}` and its
last `}` sits at a positive index, cut there and close at most one unmatched
`[` and one unmatched `{` (bracket counts taken before the appends, exactly
as the source computes them). -/
def closeTrunc (s1 : Str) : Str :=
  if s1.getLast? == some rbraceChar then s1
  else
    match lastBraceIdx s1 with
    | some i =>
      if 0 < i then
        let t := s1.take (i + 1)
        let t1 := if t.count rbrackChar < t.count lbrackChar then t ++ [rbrackChar] else t
        if t.count rbraceChar < t.count lbraceChar then t1 ++ [rbraceChar] else t1
      else s1
    | none => s1

/-- `repairJson` (`background.ts` lines 137–163), the sequential composition
of its statements: strip the markdown fences and trim, slice from the first
`{`, close a truncated tail. -/
def repairJson (raw : Str) : Str :=
  closeTrunc (sliceFromBrace (trimJS (stripFences raw)))

/-- JSON whitespace (ECMA-404): space, tab, line feed, carriage return. -/
def isJsonWs (c : Char) : Bool :=
  c == ' ' || c == '\t' || c == '\n' || c == '\r'

/-- Skip JSON whitespace. -/
def skipJsonWs (s : Str) : Str := s.dropWhile isJsonWs

/-- ASCII decimal digit? -/
def isDigitCh (c : Char) : Bool := '0' ≤ c && c ≤ '9'

/-- Value of a decimal digit character. -/
def digitVal (c : Char) : Nat := c.toNat - 48

/-- Value of a hexadecimal digit character, if any. -/
def hexVal (c : Char) : Option Nat :=
  if '0' ≤ c && c ≤ '9' then some (c.toNat - 48)
  else if 'a' ≤ c && c ≤ 'f' then some (c.toNat - 87)
  else if 'A' ≤ c && c ≤ 'F' then some (c.toNat - 55)
  else none

/-- Numeric value of a digit run. -/
def digitsToNat (ds : Str) : Nat := ds.foldl (fun a c => a * 10 + digitVal c) 0

/-- Fuelled scan of a JSON string body (after the opening quote): plain
characters up to the closing quote, `\"` `\\` `\/` `\b` `\f` `\n` `\r` `\t`
escapes, and `\uXXXX` escapes (a high/low surrogate escape pair is combined
into one code point, as `JSON.parse` does on UTF-16 strings). Control
characters below 0x20 are rejected. `fuel ≥ length` suffices. -/
def pStrBody : Nat → Str → Option (Str × Str)
  | 0, _ => none
  | _, [] => none
  | fuel + 1, c :: rest =>
    if c = quoteChar then some ([], rest)
    else if c = bslashChar then
      match rest with
      | [] => none
      | e :: rest2 =>
        if e = quoteChar then (pStrBody fuel rest2).map (fun r => (quoteChar :: r.1, r.2))
        else if e = bslashChar then (pStrBody fuel rest2).map (fun r => (bslashChar :: r.1, r.2))
        else if e = '/' then (pStrBody fuel rest2).map (fun r => ('/' :: r.1, r.2))
        else if e = 'b' then (pStrBody fuel rest2).map (fun r => (Char.ofNat 8 :: r.1, r.2))
        else if e = 'f' then (pStrBody fuel rest2).map (fun r => (Char.ofNat 12 :: r.1, r.2))
        else if e = 'n' then (pStrBody fuel rest2).map (fun r => ('\n' :: r.1, r.2))
        else if e = 'r' then (pStrBody fuel rest2).map (fun r => (Char.ofNat 13 :: r.1, r.2))
        else if e = 't' then (pStrBody fuel rest2).map (fun r => ('\t' :: r.1, r.2))
        else if e = 'u' then
          match rest2 with
          | h1 :: h2 :: h3 :: h4 :: rest3 =>
            match hexVal h1, hexVal h2, hexVal h3, hexVal h4 with
            | some a, some b, some c2, some d =>
              let cp := ((a * 16 + b) * 16 + c2) * 16 + d
              if 0xD800 ≤ cp && cp ≤ 0xDBFF then
                match rest3 with
                | e2 :: u2 :: g1 :: g2 :: g3 :: g4 :: rest4 =>
                  if e2 = bslashChar && u2 = 'u' then
                    match hexVal g1, hexVal g2, hexVal g3, hexVal g4 with
                    | some a2, some b2, some c3, some d2 =>
                      let lo := ((a2 * 16 + b2) * 16 + c3) * 16 + d2
                      if 0xDC00 ≤ lo && lo ≤ 0xDFFF then
                        (pStrBody fuel rest4).map (fun r =>
                          (Char.ofNat (0x10000 + (cp - 0xD800) * 0x400 + (lo - 0xDC00)) :: r.1, r.2))
                      else (pStrBody fuel rest3).map (fun r => (Char.ofNat cp :: r.1, r.2))
                    | _, _, _, _ => (pStrBody fuel rest3).map (fun r => (Char.ofNat cp :: r.1, r.2))
                  else (pStrBody fuel rest3).map (fun r => (Char.ofNat cp :: r.1, r.2))
                | _ => (pStrBody fuel rest3).map (fun r => (Char.ofNat cp :: r.1, r.2))
              else (pStrBody fuel rest3).map (fun r => (Char.ofNat cp :: r.1, r.2))
            | _, _, _, _ => none
          | _ => none
        else none
    else if c.toNat < 0x20 then none
    else (pStrBody fuel rest).map (fun r => (c :: r.1, r.2))

/-- Parse a JSON number (ECMA-404 grammar: `-? (0 | [1-9][0-9]*) frac? exp?`,
no leading `+`, no leading zeros, frac and exp digits non-empty), returning
its exact rational value. -/
def pNum (s : Str) : Option (ℚ × Str) :=
  let (neg, s1) :=
    match s with
    | '-' :: r => (true, r)
    | _ => (false, s)
  let intPart : Option (Nat × Str) :=
    match s1 with
    | '0' :: r => some (0, r)
    | c :: _ =>
      if isDigitCh c && c ≠ '0' then
        some (digitsToNat (s1.takeWhile isDigitCh), s1.dropWhile isDigitCh)
      else none
    | [] => none
  match intPart with
  | none => none
  | some (ip, s2) =>
    let fracPart : Option (ℚ × Str) :=
      match s2 with
      | '.' :: r =>
        let ds := r.takeWhile isDigitCh
        if ds.isEmpty then none
        else some ((digitsToNat ds : ℚ) / ((10 : ℚ) ^ ds.length), r.dropWhile isDigitCh)
      | _ => some (0, s2)
    match fracPart with
    | none => none
    | some (fp, s3) =>
      let expPart : Option (Int × Str) :=
        match s3 with
        | e :: r =>
          if e = 'e' || e = 'E' then
            let (esign, r2) :=
              match r with
              | '+' :: r3 => ((1 : Int), r3)
              | '-' :: r3 => ((-1 : Int), r3)
              | _ => ((1 : Int), r)
            let ds := r2.takeWhile isDigitCh
            if ds.isEmpty then none
            else some (esign * (digitsToNat ds : Int), r2.dropWhile isDigitCh)
          else some (0, s3)
        | [] => some (0, s3)
      match expPart with
      | none => none
      | some (ex, s4) =>
        let mag : ℚ := ((ip : ℚ) + fp) *
          (if 0 ≤ ex then (10 : ℚ) ^ ex.toNat else 1 / (10 : ℚ) ^ (-ex).toNat)
        some (if neg then -mag else mag, s4)

/-- JS property write used while building a parsed object: a duplicate key
keeps its first position but takes the later value. -/
def objInsert (fields : List (Str × JSVal)) (k : Str) (v : JSVal) :
    List (Str × JSVal) :=
  if fields.any (fun e => e.1 == k) then
    fields.map (fun e => if e.1 == k then (e.1, v) else e)
  else fields ++ [(k, v)]

mutual

/-- Fuelled JSON value parser (`JSON.parse` grammar), positioned at a
non-whitespace character. -/
def pVal : Nat → Str → Option (JSVal × Str)
  | 0, _ => none
  | _ + 1, [] => none
  | fuel + 1, c :: rest =>
    if c = lbraceChar then pObjBody fuel (skipJsonWs rest)
    else if c = lbrackChar then pArrBody fuel (skipJsonWs rest)
    else if c = quoteChar then (pStrBody rest.length rest).map (fun r => (.str r.1, r.2))
    else if c = 't' then
      match rest with
      | 'r' :: 'u' :: 'e' :: r => some (.bool true, r)
      | _ => none
    else if c = 'f' then
      match rest with
      | 'a' :: 'l' :: 's' :: 'e' :: r => some (.bool false, r)
      | _ => none
    else if c = 'n' then
      match rest with
      | 'u' :: 'l' :: 'l' :: r => some (.null, r)
      | _ => none
    else if c = '-' || isDigitCh c then (pNum (c :: rest)).map (fun r => (.num r.1, r.2))
    else none

/-- Object body after `{` and whitespace: `}` or a member list. -/
def pObjBody : Nat → Str → Option (JSVal × Str)
  | 0, _ => none
  | _ + 1, [] => none
  | fuel + 1, c :: rest =>
    if c = rbraceChar then some (.obj [], rest)
    else pMembers fuel [] (c :: rest)

/-- Members of an object: `ws string ws : element` separated by commas. -/
def pMembers : Nat → List (Str × JSVal) → Str → Option (JSVal × Str)
  | 0, _, _ => none
  | fuel + 1, acc, s =>
    match skipJsonWs s with
    | c :: rest =>
      if c = quoteChar then
        match pStrBody rest.length rest with
        | none => none
        | some (k, rest2) =>
          match skipJsonWs rest2 with
          | ':' :: rest3 =>
            match pElem fuel rest3 with
            | none => none
            | some (v, rest4) =>
              match rest4 with
              | ',' :: rest5 => pMembers fuel (objInsert acc k v) rest5
              | c2 :: rest5 =>
                if c2 = rbraceChar then some (.obj (objInsert acc k v), rest5) else none
              | [] => none
          | _ => none
      else none
    | [] => none

/-- Array body after `[` and whitespace: `]` or an element list. -/
def pArrBody : Nat → Str → Option (JSVal × Str)
  | 0, _ => none
  | _ + 1, [] => none
  | fuel + 1, c :: rest =>
    if c = rbrackChar then some (.arr [], rest)
    else pElems fuel [] (c :: rest)

/-- Elements of an array, separated by commas. -/
def pElems : Nat → List JSVal → Str → Option (JSVal × Str)
  | 0, _, _ => none
  | fuel + 1, acc, s =>
    match pElem fuel s with
    | none => none
    | some (v, rest) =>
      match rest with
      | ',' :: rest2 => pElems fuel (acc ++ [v]) rest2
      | c :: rest2 => if c = rbrackChar then some (.arr (acc ++ [v]), rest2) else none
      | [] => none

/-- `element = ws value ws`. -/
def pElem : Nat → Str → Option (JSVal × Str)
  | 0, _ => none
  | fuel + 1, s =>
    match pVal fuel (skipJsonWs s) with
    | none => none
    | some (v, rest) => some (v, skipJsonWs rest)

end

/-- `JSON.parse`: parse one element and require the whole text consumed.
The fuel `5 * length + 10` is ample: every five consecutive recursive calls
consume at least one input character. -/
def jsonParse (s : Str) : Option JSVal :=
  match pElem (5 * s.length + 10) s with
  | some (v, []) => some v
  | _ => none

/-- The terminal parse failure message (`background.ts` line 221). -/
def parseErrMsg : Str :=
  "Не удалось распарсить ответ модели. Позиция ошибки может указывать на обрезанный JSON — попробуйте снова.".toList

/-- The nine-character literal `"results"` (quotes included) of the fallback
regexp `/\{[\s\S]*"results"[\s\S]*\}/`. -/
def resultsLit : Str := (quoteChar :: "results".toList) ++ [quoteChar]

/-- Does the literal `"results"` occur at position `j` of `s`? -/
def resultsLitAt (s : Str) (j : Nat) : Bool :=
  (s.drop j).take 9 == resultsLit

/-- Can the fallback regexp match starting at position `i`? It needs a `{` at
`i`, the literal `"results"` somewhere after it and a `}` after that. -/
def resultsFeasibleStart (s : Str) (i : Nat) : Bool :=
  (s[i]? == some lbraceChar) &&
    ((List.range s.length).any (fun j =>
      decide (i < j) && resultsLitAt s j &&
        ((List.range s.length).any (fun k =>
          decide (j + 9 ≤ k) && (s[k]? == some rbraceChar)))))

/-- The match of `raw.match(/\{[\s\S]*"results"[\s\S]*\}/)` (`background.ts`
line 214): the leftmost feasible `{` through the rightmost `}` that still has
a `"results"` between itself and that `{` (both `[\s\S]*` are greedy). -/
def resultsMatch (s : Str) : Option Str :=
  match (List.range s.length).find? (resultsFeasibleStart s) with
  | none => none
  | some i =>
    match ((List.range s.length).filter (fun k =>
        (s[k]? == some rbraceChar) &&
          ((List.range s.length).any (fun j =>
            decide (i < j) && resultsLitAt s j && decide (j + 9 ≤ k))))).getLast? with
    | none => none
    | some k => some ((s.drop i).take (k + 1 - i))

/-- The parse/recovery tail of `analyzeProducts` (`background.ts` lines
208–222) on the already-normalized content string: repair and parse; on
failure, search the original string for the largest brace-to-brace substring
containing `"results"`, repair and parse that; otherwise fail with
`parseErrMsg`. The successfully parsed value is returned as-is — the source
casts it to `AnalysisResponse` without any structural validation. -/
def recoverStr (raw : Str) : Except Str JSVal :=
  match jsonParse (repairJson raw) with
  | some v => .ok v
  | none =>
    match resultsMatch raw with
    | some m =>
      match jsonParse (repairJson m) with
      | some v => .ok v
      | none => .error parseErrMsg
    | none => .error parseErrMsg

/-- Lines 206–222 of `analyzeProducts`: normalize the message content, then
repair/parse/recover. -/
def analyzeParse (content : JSVal) : Except Str JSVal :=
  recoverStr (normalizeContent content)

/-- Is every element a JSON string? -/
def allStr (l : List JSVal) : Bool :=
  l.all (fun v => match v with | .str _ => true | _ => false)

/-- Structural well-formedness of one `AnalysisResult` entry per the
`AnalysisResult` interface (`background.ts` lines 6–18): required fields of
the right shapes, `counterfeitRisk` one of `low`/`medium`/`high`,
`counterfeitReason` optional. -/
def validResult (v : JSVal) : Bool :=
  match v with
  | .obj fields =>
    (match lookupField fields "rank".toList with | some (.num _) => true | _ => false) &&
    (match lookupField fields "name".toList with | some (.str _) => true | _ => false) &&
    (match lookupField fields "brand".toList with | some (.str _) => true | _ => false) &&
    (match lookupField fields "price".toList with | some (.num _) => true | _ => false) &&
    (match lookupField fields "score".toList with | some (.num _) => true | _ => false) &&
    (match lookupField fields "verdict".toList with | some (.str _) => true | _ => false) &&
    (match lookupField fields "pros".toList with | some (.arr l) => allStr l | _ => false) &&
    (match lookupField fields "cons".toList with | some (.arr l) => allStr l | _ => false) &&
    (match lookupField fields "recommendation".toList with | some (.str _) => true | _ => false) &&
    (match lookupField fields "counterfeitRisk".toList with
      | some (.str r) => r == "low".toList || r == "medium".toList || r == "high".toList
      | _ => false) &&
    (match lookupField fields "counterfeitReason".toList with
      | some (.str _) => true | none => true | _ => false)
  | _ => false

/-- Structural well-formedness of an `AnalysisResponse` (`background.ts`
lines 20–24): a `results` array of well-formed entries, a string `summary`
and a string `bestChoice`. -/
def validAnalysisResponse (v : JSVal) : Bool :=
  match v with
  | .obj fields =>
    (match lookupField fields "results".toList with
      | some (.arr l) => l.all validResult | _ => false) &&
    (match lookupField fields "summary".toList with | some (.str _) => true | _ => false) &&
    (match lookupField fields "bestChoice".toList with | some (.str _) => true | _ => false)
  | _ => false

/-- JS `Math.round`: round half up (towards +∞). -/
def jsRound (q : ℚ) : Int := (q + 1 / 2).floor

/-- The price fragment of one rendered offer line (`background.ts` line 174):
`Цена: ${p.price > 0 ? p.price + ' ₽' : 'нет данных'}`. -/
def priceFrag (p : Product) : Str :=
  "Цена: ".toList ++
    (if 0 < p.price then jsNumToStr p.price ++ " ₽".toList else "нет данных".toList)

/-- One rendered offer line of the user prompt (`background.ts` lines
169–178), for the offer at zero-based position `i`. -/
def productLine (i : Nat) (p : Product) : Str :=
  List.intercalate ", ".toList
    ([natToStr (i + 1) ++ ". Производитель: ".toList ++
        (if p.manufacturer.isEmpty then "Неизвестно".toList else p.manufacturer)] ++
      (if p.partNumber.isEmpty then [] else ["Артикул: ".toList ++ p.partNumber]) ++
      (if p.description.isEmpty then [] else ["Деталь: ".toList ++ p.description]) ++
      (match p.volume with
        | some v => if v = 0 then [] else ["Объём: ".toList ++ jsNumToStr v ++ " л".toList]
        | none => []) ++
      [priceFrag p] ++
      (match p.pricePerLiter with
        | some v =>
          if v = 0 then []
          else ["Цена за литр: ".toList ++ intToStr (jsRound v) ++ " ₽/л".toList]
        | none => []) ++
      (if p.supplier.isEmpty then [] else ["Поставщик: ".toList ++ p.supplier]) ++
      (if p.deliveryDate.isEmpty then [] else ["Дата доставки: ".toList ++ p.deliveryDate]))

/-- Keep the first occurrence of every key, in order of first appearance. -/
def dedupFirst (xs : List Str) : List Str :=
  xs.foldl (fun acc k => if k ∈ acc then acc else acc ++ [k]) []

/-- Modelled from the spec: the representative of one manufacturer group is
"the single member whose price has the minimum absolute distance to that
median (ties broken by first occurrence in input order)" — the first member
whose distance to the group's price median is minimal. -/
def specRep (g : List Product) : Product :=
  let med := median (g.map (fun p => p.price))
  (g.find? (fun p => decide (∀ q ∈ g, |p.price - med| ≤ |q.price - med|))).getD default

/-- Modelled from the spec: the selection step described by §4.1 / claim C3 —
exclude non-positive-price offers, partition by the trimmed case-insensitive
manufacturer key in order of first appearance, pick each group's
closest-to-median member, and keep at most `cap` of them. -/
def specSelect (cap : Nat) (offers : List Product) : List Product :=
  let priced := offers.filter (fun p => decide (0 < p.price))
  ((dedupFirst (priced.map manufacturerKey)).map (fun k =>
    specRep (priced.filter (fun p => manufacturerKey p == k)))).take cap

/-- Modelled from the spec: the truncation-repair step described by claim C5 —
cut the string at its last `}` (discarding everything after it), then count
`[`/`]` and `{`/`}` over the resulting string and append one `]` and/or one
`}` when opens exceed closes. A string with no `}` at all is outside the
claim's description and returned unchanged. -/
def specTruncRepair (s : Str) : Str :=
  match lastBraceIdx s with
  | some i =>
    let t := s.take (i + 1)
    let t1 := if t.count rbrackChar < t.count lbrackChar then t ++ [rbrackChar] else t
    if t.count rbraceChar < t.count lbraceChar then t1 ++ [rbraceChar] else t1
  | none => s

/-- Modelled from the spec (claim C8 as amended): a chunk's extractable text —
a string chunk itself, an object chunk's string `text` field, nothing
otherwise. -/
def specChunkText : JSVal → Str
  | .str s => s
  | .obj fields =>
    match lookupField fields textKey with
    | some (.str t) => t
    | _ => []
  | _ => []

/-- Modelled from the spec (claim C8 as amended): normalization never fails;
a plain string is trimmed; an array yields the newline-join of its chunks'
non-empty extractable texts, trimmed (empty fragments contribute nothing, not
even a separator); an object with a string `text` field yields that text;
`null`/`undefined` yield the empty string; any other shape yields its trimmed
JS string-coercion (not necessarily empty). -/
def specNormalize : JSVal → Str
  | .str s => trimJS s
  | .arr chunks =>
    trimJS (List.intercalate ['\n']
      ((chunks.map specChunkText).filter (fun f => !f.isEmpty)))
  | .obj fields =>
    match lookupField fields textKey with
    | some (.str t) => t
    | _ => trimJS ("[object Object]".toList)
  | .null => []
  | .undef => []
  | v => trimJS (jsStringCoerce v)

/-- Shorthand for an offer with only a manufacturer and a price (the fields
the selection logic inspects). -/
def mkOffer (m : String) (pr : ℚ) : Product :=
  ⟨m.toList, [], [], [], pr, [], [], [], none, none⟩

/-- The four-offer manufacturer group of claim C4, in input order. -/
def c4Group : List Product :=
  [mkOffer "m" 100, mkOffer "m" 200, mkOffer "m" 300, mkOffer "m" 1000]

/-- A single zero-price offer: a list of length ≤ cap that `truncateProducts`
does not return unchanged. -/
def c2Zero : List Product := [mkOffer "a" 0]

/-- A short all-positive list with pairwise distinct manufacturer keys. -/
def c2Good : List Product := [mkOffer "a" 10, mkOffer "b" 20, mkOffer "c" 30]

/-- Twelve offers over twelve distinct manufacturers, all priced 100. -/
def c3Twelve : List Product :=
  (List.range 12).map (fun i => mkOffer (String.mk [Char.ofNat (97 + i)]) 100)

/-- A trimmed fence-free string whose only `}` sits at index 0: the
`lastIndexOf('}') > 0` guard of `repairJson` skips the repair on it. -/
def c5Bad : Str := "\x7dx".toList

/-- A trimmed fence-free truncated string whose last `}` sits at a positive
index. -/
def c5Ex : Str := "\x7b\"a\":1\x7dtr".toList

/-- A truncated text missing two closing braces of the same kind. -/
def c9Ex : Str := "\x7b\"a\":\x7b\"b\":\x7b\"c\":1\x7d,\"d\":".toList

/-- The model content of claim C1's counterexample: perfectly valid JSON that
is in no way an `AnalysisResponse`. -/
def c1Bad : Str := "\x7b\"a\":1\x7d".toList

/-- The value `{"a": 1}`. -/
def c1BadVal : JSVal := .obj [("a".toList, .num 1)]

/-- A valid JSON text (the string `"}"`) that is not object-shaped. -/
def c7Bad : Str := [quoteChar, rbraceChar, quoteChar]

/-- The leading prose of claim C6's content. -/
def c6Hdr : Str := "Here is the answer:\n".toList

/-- The opening fence ```` ```json ```` with its newline. -/
def c6FenceOpen : Str := "```json\n".toList

/-- The closing fence with its newline. -/
def c6FenceClose : Str := "\n```".toList

/-- Claim C6's content shape: prose, an opening ```` ```json ```` fence, the
serialized response text, a closing fence. -/
def c6Wrap (t : Str) : Str := c6Hdr ++ c6FenceOpen ++ t ++ c6FenceClose

/-- The serialized empty `AnalysisResponse` of claim C6's concrete example. -/
def c6Json : Str := "\x7b\"results\":[],\"summary\":\"s\",\"bestChoice\":\"b\"\x7d".toList

/-- The structure denoted by `c6Json`. -/
def c6Val : JSVal :=
  .obj [("results".toList, .arr []), ("summary".toList, .str "s".toList),
    ("bestChoice".toList, .str "b".toList)]

/-- A well-formed `AnalysisResponse` whose `summary` contains a code-fence
marker, serialized to JSON text. -/
def c6TickJson : Str :=
  "\x7b\"results\":[],\"summary\":\"a```b\",\"bestChoice\":\"b\"\x7d".toList

/-- The structure denoted by `c6TickJson`. -/
def c6TickVal : JSVal :=
  .obj [("results".toList, .arr []), ("summary".toList, .str "a```b".toList),
    ("bestChoice".toList, .str "b".toList)]

/-- What recovery actually returns for `c6Wrap c6TickJson`: the fence markers
inside `summary` have been stripped away. -/
def c6TickStripped : JSVal :=
  .obj [("results".toList, .arr []), ("summary".toList, .str "ab".toList),
    ("bestChoice".toList, .str "b".toList)]

/-- Is there a backtick triple starting at position `i`? The fence regexps
can only start matching at such a position. -/
def hasTripleAt (s : Str) (i : Nat) : Bool :=
  (s[i]? == some tickChar) && (s[i + 1]? == some tickChar) && (s[i + 2]? == some tickChar)

/-- The grouping described by the spec's words: one entry per distinct
manufacturer key in order of first appearance, carrying all offers with that
key in input order. -/
def specGroupsOf (l : List Product) : List (Str × List Product) :=
  (dedupFirst (l.map manufacturerKey)).map
    (fun k => (k, l.filter (fun p => manufacturerKey p == k)))

unseal Rat.add Rat.mul Rat.sub Rat.inv Nat.gcd

lemma chunkFrag_eq_specChunkText : chunkFrag = specChunkText := by
  funext v
  cases v <;> rfl

/-- Claim C8 (amended): `normalizeContent` agrees everywhere with the
spec-transcribed normalization `specNormalize` — total, trimming strings,
newline-joining the non-empty extractable fragments of arrays, returning the
empty string for `null`/`undefined`, and the trimmed JS string-coercion (not
necessarily empty) for every other unrecognized shape. -/
theorem c8_normalize_total_shape : ∀ v : JSVal, normalizeContent v = specNormalize v := by
  intro v
  cases v with
  | arr chunks => simp [normalizeContent, specNormalize, chunkFrag_eq_specChunkText]
  | _ => rfl

/-- Counterexample to claim C8 as stated: an unrecognized shape (a boolean)
normalizes to its string-coercion `"true"`, not to the empty string; and an
array's empty string chunks are dropped entirely by `filter(Boolean)`,
contributing no newline separator. -/
theorem c8_unrecognized_not_empty :
    (normalizeContent (.bool true) = "true".toList ∧ "true".toList ≠ ([] : Str)) ∧
      (normalizeContent (.arr [.str "a".toList, .str [], .str "b".toList]) = "a\nb".toList ∧
        ("a\nb".toList : Str) ≠ "a\n\nb".toList) := by
  decide

/-- Claim C4: in the group with prices 100, 200, 300, 1000 the representative
picked by `truncateProducts` is the offer priced 200 (median 250; 200 beats
the tied-distance 300 by input order). -/
theorem c4_median_outlier_group :
    truncateProducts c4Group = [mkOffer "m" 200] ∧ (mkOffer "m" 200).price = 200 := by
  decide

/-- Claim C1 (amended): the recovery pipeline either returns a value that some
`JSON.parse` run succeeded on (the repaired direct or fallback-extracted
content), or fails with the explicit parse error; it performs no structural
validation of the parsed value. -/
theorem c1_parse_result_or_error :
    ∀ content : JSVal,
      (∃ v s, analyzeParse content = .ok v ∧ jsonParse s = some v) ∨
        analyzeParse content = .error parseErrMsg := by
  intro content
  cases h1 : jsonParse (repairJson (normalizeContent content)) with
  | some v =>
    refine Or.inl ⟨v, repairJson (normalizeContent content), ?_, h1⟩
    simp [analyzeParse, recoverStr, h1]
  | none =>
    cases h2 : resultsMatch (normalizeContent content) with
    | none =>
      refine Or.inr ?_
      simp [analyzeParse, recoverStr, h1, h2]
    | some m =>
      cases h3 : jsonParse (repairJson m) with
      | some v =>
        refine Or.inl ⟨v, repairJson m, ?_, h3⟩
        simp [analyzeParse, recoverStr, h1, h2, h3]
      | none =>
        refine Or.inr ?_
        simp [analyzeParse, recoverStr, h1, h2, h3]

/-- Counterexample to claim C1 as stated: the content `{"a":1}` is recovered
"successfully" — no `ParseError` — yet the returned object has none of the
`AnalysisResponse` fields: the pipeline can return a structurally invalid
object because `JSON.parse`'s result is cast, not validated. -/
theorem c1_invalid_value_returned :
    analyzeParse (.str c1Bad) = .ok c1BadVal ∧ validAnalysisResponse c1BadVal = false :=
  ⟨rfl, rfl⟩

/-- Counterexample to claim C5 as stated: `"}x"` is trimmed, fence-free and
does not end in `}`; the claim's transform cuts at the last `}` (index 0) and
yields `"}"`, but `repairJson`'s `lastIndexOf('}') > 0` guard skips the
repair entirely and returns `"}x"` unchanged. -/
theorem c5_last_brace_at_zero :
    repairJson c5Bad = c5Bad ∧ specTruncRepair c5Bad = [rbraceChar] ∧
      c5Bad ≠ [rbraceChar] := by
  decide

/-- Claim C5 (amended): for every trimmed, fence-free input that does not end
in `}`, has no prose before a first `{` (the first `{`, if any, is at index
0) and whose last `}` sits at a положительном — positive — index, `repairJson`
performs exactly the claimed transform: cut at the last `}`, then append one
`]` and/or one `}` according to the bracket counts of the cut string. -/
theorem c5_truncation_repair (s : Str)
    (hstrip : stripFences s = s) (htrim : trimJS s = s)
    (hidx : jsIndexOf s lbraceChar = none ∨ jsIndexOf s lbraceChar = some 0)
    (hend : s.getLast? ≠ some rbraceChar)
    (hlast : ∃ i, lastBraceIdx s = some i ∧ 0 < i) :
    repairJson s = specTruncRepair s := by
  obtain ⟨i, hi, hpos⟩ := hlast
  have h1 : sliceFromBrace s = s := by
    unfold sliceFromBrace
    rcases hidx with h | h <;> simp [h]
  have hbeq : (s.getLast? == some rbraceChar) = false := by
    simp [hend]
  unfold repairJson
  rw [hstrip, htrim, h1]
  unfold closeTrunc specTruncRepair
  rw [hbeq, hi]
  simp [hpos]

/-- Witness for `c5_truncation_repair` at the concrete truncated input
`{"a":1}tr`. -/
theorem c5_truncation_repair_witness :
    repairJson c5Ex = specTruncRepair c5Ex ∧ repairJson c5Ex = "\x7b\"a\":1\x7d".toList :=
  ⟨c5_truncation_repair c5Ex (by decide) (by decide) (Or.inr (by decide)) (by decide)
      ⟨6, by decide, by decide⟩,
    by decide⟩

/-- Counterexample to claim C2 as stated: a single zero-price offer is a list
of length ≤ cap, yet `truncateProducts` filters it away instead of returning
the list unchanged. -/
theorem c2_not_identity_on_zero_price :
    c2Zero.length ≤ MAX_MANUFACTURERS ∧ truncateProducts c2Zero ≠ c2Zero := by
  decide

lemma filter_pos_of_all (l : List Product) (hpos : ∀ p ∈ l, 0 < p.price) :
    l.filter (fun p => decide (0 < p.price)) = l :=
  List.filter_eq_self.mpr (fun a ha => decide_eq_true (hpos a ha))

lemma foldl_upsert_distinct :
    ∀ (l : List Product) (acc : List (Str × List Product)),
      (∀ e ∈ acc, ∀ p ∈ l, e.1 ≠ manufacturerKey p) →
      l.Pairwise (fun p q => manufacturerKey p ≠ manufacturerKey q) →
      l.foldl upsertGroup acc = acc ++ l.map (fun p => (manufacturerKey p, [p])) := by
  intro l
  induction l with
  | nil => intro acc _ _; simp
  | cons p l' IH =>
    intro acc hacc hpw
    have hany : acc.any (fun e => e.1 == manufacturerKey p) = false := by
      rw [List.any_eq_false]
      intro e he
      simpa using hacc e he p (List.mem_cons_self p l')
    have hstep : upsertGroup acc p = acc ++ [(manufacturerKey p, [p])] := by
      unfold upsertGroup
      rw [hany]
      simp
    rw [List.foldl_cons, hstep,
      IH (acc ++ [(manufacturerKey p, [p])]) ?_ (List.pairwise_cons.mp hpw).2]
    · simp
    · intro e he q hq
      rcases List.mem_append.mp he with h | h
      · exact hacc e h q (List.mem_cons_of_mem p hq)
      · have he2 : e = (manufacturerKey p, [p]) := by simpa using h
        subst he2
        exact fun hk => ((List.pairwise_cons.mp hpw).1 q hq) hk

/-- Claim C2 (amended): `truncateProducts` returns a list of at most
`MAX_MANUFACTURERS` offers unchanged provided the offers all have strictly
positive price and pairwise distinct manufacturer keys; the counterexample
shows the unrestricted claim fails (zero-price offers are dropped, and
same-manufacturer offers are collapsed, regardless of length). -/
theorem c2_short_list_identity (l : List Product)
    (hlen : l.length ≤ MAX_MANUFACTURERS)
    (hpos : ∀ p ∈ l, 0 < p.price)
    (hkeys : l.Pairwise (fun p q => manufacturerKey p ≠ manufacturerKey q)) :
    truncateProducts l = l := by
  simp only [truncateProducts, buildGroups]
  rw [filter_pos_of_all l hpos, foldl_upsert_distinct l [] (by simp) hkeys]
  simp only [List.nil_append, List.map_map]
  have hmap : l.map ((fun e => groupRep e.2) ∘ fun p => (manufacturerKey p, [p])) = l.map id :=
    List.map_congr_left (fun p _ => rfl)
  rw [hmap, List.map_id]
  exact List.take_of_length_le hlen

/-- Witness for `c2_short_list_identity` on three distinct-manufacturer
positive-price offers. -/
theorem c2_short_list_identity_witness :
    c2Good.length ≤ MAX_MANUFACTURERS ∧ truncateProducts c2Good = c2Good :=
  ⟨by decide,
    c2_short_list_identity c2Good (by decide) (by decide) (by decide)⟩

lemma sliceFromBrace_is_drop (s0 : Str) : ∃ k, sliceFromBrace s0 = s0.drop k := by
  unfold sliceFromBrace
  cases h : jsIndexOf s0 lbraceChar with
  | none => exact ⟨0, by simp⟩
  | some i =>
    by_cases hi : 0 < i
    · exact ⟨i, by simp [hi]⟩
    · exact ⟨0, by simp [hi]⟩

lemma closeTrunc_decompose (s1 : Str) :
    ∃ mid post tail, s1 = mid ++ post ∧ closeTrunc s1 = mid ++ tail ∧
      (tail = [] ∨ tail = [rbrackChar] ∨ tail = [rbraceChar] ∨
        tail = [rbrackChar, rbraceChar]) := by
  unfold closeTrunc
  cases hend : (s1.getLast? == some rbraceChar) with
  | true => exact ⟨s1, [], [], by simp, by simp, Or.inl rfl⟩
  | false =>
    simp only [Bool.false_eq_true, if_false]
    cases hlast : lastBraceIdx s1 with
    | none => exact ⟨s1, [], [], by simp, by simp, Or.inl rfl⟩
    | some i =>
      by_cases hi : 0 < i
      · simp only [hi, if_true]
        refine ⟨s1.take (i + 1), s1.drop (i + 1),
          (if (s1.take (i + 1)).count rbrackChar < (s1.take (i + 1)).count lbrackChar
            then [rbrackChar] else []) ++
          (if (s1.take (i + 1)).count rbraceChar < (s1.take (i + 1)).count lbraceChar
            then [rbraceChar] else []),
          (List.take_append_drop _ _).symm, ?_, ?_⟩
        · split <;> split <;> simp
        · split <;> split <;> simp
      · simp only [hi, if_false]
        exact ⟨s1, [], [], by simp, by simp, Or.inl rfl⟩

/-- Claim C9: `repairJson` appends at most one `]` and at most one `}`, and
apart from that appended tail its output is a contiguous substring of the
fence-stripped trimmed input; consequently the concrete truncated text
`c9Ex`, which is missing two closing braces, is returned still unbalanced
(after the single appended `}` its `{` count still exceeds its `}` count). -/
theorem c9_repair_appends_bounded :
    (∀ raw : Str, ∃ pre mid post tail,
      trimJS (stripFences raw) = pre ++ (mid ++ post) ∧
      repairJson raw = mid ++ tail ∧
      (tail = [] ∨ tail = [rbrackChar] ∨ tail = [rbraceChar] ∨
        tail = [rbrackChar, rbraceChar])) ∧
      (c9Ex.count lbraceChar = c9Ex.count rbraceChar + 2 ∧
        (repairJson c9Ex).count rbraceChar < (repairJson c9Ex).count lbraceChar) := by
  constructor
  · intro raw
    obtain ⟨k, hk⟩ := sliceFromBrace_is_drop (trimJS (stripFences raw))
    obtain ⟨mid, post, tail, hsplit, hclose, htail⟩ :=
      closeTrunc_decompose (sliceFromBrace (trimJS (stripFences raw)))
    refine ⟨(trimJS (stripFences raw)).take k, mid, post, tail, ?_, ?_, htail⟩
    · rw [← hsplit, hk]
      exact (List.take_append_drop _ _).symm
    · rw [repairJson, hclose]
  · constructor <;> decide

lemma mem_dedup_foldl :
    ∀ (xs : List Str) (acc : List Str) (a : Str),
      (a ∈ xs.foldl (fun acc k => if k ∈ acc then acc else acc ++ [k]) acc) ↔
        (a ∈ acc ∨ a ∈ xs) := by
  intro xs
  induction xs with
  | nil => simp
  | cons x xs IH =>
    intro acc a
    rw [List.foldl_cons, IH]
    by_cases hx : x ∈ acc
    · simp only [hx, if_true, List.mem_cons]
      constructor
      · rintro (h | h)
        · exact Or.inl h
        · exact Or.inr (Or.inr h)
      · rintro (h | h | h)
        · exact Or.inl h
        · exact Or.inl (h ▸ hx)
        · exact Or.inr h
    · simp only [hx, if_false, List.mem_append, List.mem_singleton, List.mem_cons]
      tauto

lemma mem_dedupFirst (xs : List Str) (a : Str) : a ∈ dedupFirst xs ↔ a ∈ xs := by
  unfold dedupFirst
  rw [mem_dedup_foldl]
  simp

lemma dedupFirst_append_one (xs : List Str) (x : Str) :
    dedupFirst (xs ++ [x]) =
      if x ∈ dedupFirst xs then dedupFirst xs else dedupFirst xs ++ [x] := by
  unfold dedupFirst
  rw [List.foldl_append]
  rfl

lemma buildGroups_append_one (l : List Product) (p : Product) :
    buildGroups (l ++ [p]) = upsertGroup (buildGroups l) p := by
  unfold buildGroups
  rw [List.foldl_append]
  rfl

lemma filter_key_nil (l : List Product) (k : Str)
    (h : ∀ p ∈ l, manufacturerKey p ≠ k) :
    l.filter (fun p => manufacturerKey p == k) = [] := by
  rw [List.filter_eq_nil_iff]
  intro p hp
  simp [h p hp]

lemma beq_key_false_of_ne {k k2 : Str} (h : k ≠ k2) : (k == k2) = false := by
  simp [h]

lemma filter_singleton_key (p : Product) (k : Str) (h : manufacturerKey p ≠ k) :
    ([p].filter (fun q => manufacturerKey q == k)) = [] := by
  rw [List.filter_singleton, beq_key_false_of_ne h]
  rfl

lemma buildGroups_eq (l : List Product) : buildGroups l = specGroupsOf l := by
  induction l using List.reverseRecOn with
  | nil => rfl
  | append_singleton l p IH =>
    rw [buildGroups_append_one, IH]
    have hded0 := dedupFirst_append_one (l.map manufacturerKey) (manufacturerKey p)
    by_cases hmem : manufacturerKey p ∈ dedupFirst (l.map manufacturerKey)
    · have hany : ((specGroupsOf l).any fun e => e.1 == manufacturerKey p) = true := by
        rw [List.any_eq_true]
        refine ⟨(manufacturerKey p,
          l.filter (fun q => manufacturerKey q == manufacturerKey p)), ?_, by simp⟩
        exact List.mem_map_of_mem _ hmem
      unfold upsertGroup
      rw [hany]
      simp only [if_true]
      unfold specGroupsOf
      rw [List.map_map]
      have hded : dedupFirst ((l ++ [p]).map manufacturerKey) =
          dedupFirst (l.map manufacturerKey) := by
        rw [List.map_append, List.map_singleton, hded0.trans (if_pos hmem)]
      rw [hded]
      apply List.map_congr_left
      intro k hk
      simp only [Function.comp_apply]
      rw [List.filter_append]
      by_cases hkp : k = manufacturerKey p
      · subst hkp
        rw [List.filter_singleton]
        simp
      · rw [beq_key_false_of_ne hkp, filter_singleton_key p k (Ne.symm hkp)]
        simp
    · have hany : ((specGroupsOf l).any fun e => e.1 == manufacturerKey p) = false := by
        rw [List.any_eq_false]
        intro e he
        obtain ⟨k, hk, rfl⟩ := List.mem_map.mp he
        simp only [beq_iff_eq]
        intro hkp
        exact hmem (hkp ▸ hk)
      unfold upsertGroup
      rw [hany]
      simp only [Bool.false_eq_true, if_false]
      unfold specGroupsOf
      have hded : dedupFirst ((l ++ [p]).map manufacturerKey) =
          dedupFirst (l.map manufacturerKey) ++ [manufacturerKey p] := by
        rw [List.map_append, List.map_singleton, hded0.trans (if_neg hmem)]
      rw [hded, List.map_append, List.map_singleton]
      congr 1
      · apply List.map_congr_left
        intro k hk
        have hkp : k ≠ manufacturerKey p := fun h => hmem (h ▸ hk)
        rw [List.filter_append, filter_singleton_key p k (Ne.symm hkp)]
        simp
      · have hnil : l.filter (fun q => manufacturerKey q == manufacturerKey p) = [] := by
          apply filter_key_nil
          intro q hq hkq
          exact hmem ((mem_dedupFirst _ _).mpr (hkq ▸ List.mem_map_of_mem manufacturerKey hq))
        rw [List.filter_append, hnil, List.filter_singleton]
        simp

lemma find?_cons_pos {α : Type} (p : α → Bool) (a : α) (l : List α) (h : p a = true) :
    (a :: l).find? p = some a := by
  simp [List.find?, h]

lemma find?_cons_neg {α : Type} (p : α → Bool) (a : α) (l : List α) (h : p a = false) :
    (a :: l).find? p = l.find? p := by
  simp [List.find?, h]

lemma find?_congrOn {α : Type} (l : List α) (p q : α → Bool)
    (h : ∀ x ∈ l, p x = q x) : l.find? p = l.find? q := by
  induction l with
  | nil => rfl
  | cons a l IH =>
    cases hqa : q a with
    | true =>
      rw [find?_cons_pos p a l ((h a (List.mem_cons_self a l)).trans hqa),
        find?_cons_pos q a l hqa]
    | false =>
      rw [find?_cons_neg p a l ((h a (List.mem_cons_self a l)).trans hqa),
        find?_cons_neg q a l hqa]
      exact IH (fun x hx => h x (List.mem_cons_of_mem a hx))

lemma foldl_pick_first (med : ℚ) :
    ∀ (t : List Product) (b : Product),
      ∃ r, ((b :: t).find? (fun p =>
          decide (∀ q ∈ b :: t, |p.price - med| ≤ |q.price - med|))) = some r ∧
        t.foldl (pickCloser med) b = r := by
  intro t
  induction t with
  | nil =>
    intro b
    refine ⟨b, ?_, rfl⟩
    rw [find?_cons_pos _ b [] ?_]
    apply decide_eq_true
    intro q hq
    rcases List.mem_cons.mp hq with rfl | h
    · exact le_rfl
    · exact absurd h (List.not_mem_nil q)
  | cons a t2 IH =>
    intro b
    by_cases hab : |a.price - med| < |b.price - med|
    · obtain ⟨r, hfind, hfold⟩ := IH a
      have hpick : pickCloser med b a = a := by
        unfold pickCloser
        rw [if_pos hab]
      refine ⟨r, ?_, by rw [List.foldl_cons, hpick, hfold]⟩
      rw [find?_cons_neg _ b (a :: t2) ?_]
      · rw [find?_congrOn (a :: t2) _ (fun p =>
          decide (∀ q ∈ a :: t2, |p.price - med| ≤ |q.price - med|)) ?_]
        · exact hfind
        · intro x _
          apply decide_eq_decide.mpr
          constructor
          · intro hP q hq
            exact hP q (List.mem_cons_of_mem b hq)
          · intro hP q hq
            rcases List.mem_cons.mp hq with hqb | hq2
            · rw [hqb]
              exact le_trans (hP a (List.mem_cons_self a t2)) (le_of_lt hab)
            · exact hP q hq2
      · apply decide_eq_false
        intro hP
        exact absurd hab
          (not_lt.mpr (hP a (List.mem_cons_of_mem b (List.mem_cons_self a t2))))
    · have hba : |b.price - med| ≤ |a.price - med| := not_lt.mp hab
      obtain ⟨r, hfind, hfold⟩ := IH b
      have hpick : pickCloser med b a = b := by
        unfold pickCloser
        rw [if_neg hab]
      refine ⟨r, ?_, by rw [List.foldl_cons, hpick, hfold]⟩
      by_cases hPb : ∀ q ∈ b :: t2, |b.price - med| ≤ |q.price - med|
      · have hrb : r = b := by
          rw [find?_cons_pos _ b t2 (decide_eq_true hPb)] at hfind
          exact (Option.some_inj.mp hfind).symm
        rw [find?_cons_pos _ b (a :: t2) ?_]
        · rw [hrb]
        · apply decide_eq_true
          intro q hq
          rcases List.mem_cons.mp hq with rfl | hq2
          · exact le_rfl
          rcases List.mem_cons.mp hq2 with rfl | hq3
          · exact hba
          · exact hPb q (List.mem_cons_of_mem b hq3)
      · push_neg at hPb
        obtain ⟨q0, hq0mem, hq0lt⟩ := hPb
        have hq0t2 : q0 ∈ t2 := by
          rcases List.mem_cons.mp hq0mem with rfl | h
          · exact absurd le_rfl (not_le.mpr hq0lt)
          · exact h
        rw [find?_cons_neg _ b t2 ?_] at hfind
        · rw [find?_cons_neg _ b (a :: t2) ?_, find?_cons_neg _ a t2 ?_]
          · rw [find?_congrOn t2 _ (fun p =>
              decide (∀ q ∈ b :: t2, |p.price - med| ≤ |q.price - med|)) ?_]
            · exact hfind
            · intro x _
              apply decide_eq_decide.mpr
              constructor
              · intro hP q hq
                rcases List.mem_cons.mp hq with hqb | hq2
                · rw [hqb]
                  exact hP b (List.mem_cons_self b (a :: t2))
                · exact hP q (List.mem_cons_of_mem b (List.mem_cons_of_mem a hq2))
              · intro hP q hq
                rcases List.mem_cons.mp hq with hqb | hq2
                · rw [hqb]
                  exact hP b (List.mem_cons_self b t2)
                rcases List.mem_cons.mp hq2 with hqa | hq3
                · rw [hqa]
                  exact le_trans (hP b (List.mem_cons_self b t2)) hba
                · exact hP q (List.mem_cons_of_mem b hq3)
          · apply decide_eq_false
            intro hP
            have := hP q0 (List.mem_cons_of_mem b (List.mem_cons_of_mem a hq0t2))
            exact absurd (lt_of_lt_of_le hq0lt hba) (not_lt.mpr this)
          · apply decide_eq_false
            intro hP
            have := hP q0 (List.mem_cons_of_mem b (List.mem_cons_of_mem a hq0t2))
            exact absurd hq0lt (not_lt.mpr this)
        · apply decide_eq_false
          intro hP
          exact absurd hq0lt (not_lt.mpr (hP q0 hq0mem))

lemma groupRep_eq_specRep (g : List Product) (h : g ≠ []) : groupRep g = specRep g := by
  match g with
  | b :: t =>
    obtain ⟨r, hfind, hfold⟩ :=
      foldl_pick_first (median ((b :: t).map (fun p => p.price))) t b
    simp only [groupRep, specRep]
    rw [hfold, hfind]
    rfl

lemma group_filter_ne_nil (l : List Product) (k : Str)
    (hk : k ∈ dedupFirst (l.map manufacturerKey)) :
    l.filter (fun p => manufacturerKey p == k) ≠ [] := by
  obtain ⟨p, hp, hkey⟩ := List.mem_map.mp ((mem_dedupFirst _ _).mp hk)
  intro hnil
  have : p ∈ l.filter (fun p => manufacturerKey p == k) :=
    List.mem_filter.mpr ⟨hp, by simp [hkey]⟩
  rw [hnil] at this
  exact absurd this (List.not_mem_nil p)

lemma truncate_eq_specSelect (l : List Product) :
    truncateProducts l = specSelect MAX_MANUFACTURERS l := by
  simp only [truncateProducts, specSelect]
  rw [buildGroups_eq]
  simp only [specGroupsOf, List.map_map]
  congr 1
  apply List.map_congr_left
  intro k hk
  simp only [Function.comp_apply]
  exact groupRep_eq_specRep _ (group_filter_ne_nil _ k hk)

/-- Claim C3: on lists longer than the cap, `truncateProducts` performs
exactly the selection the spec describes (`specSelect`): exclude non-positive
prices, partition by the trimmed case-insensitive manufacturer key (the empty
manufacturer getting the label group), pick per group the first member whose
price is closest to the group's price median, list the picks in order of each
group's first appearance and keep at most the cap of them. (The equality in
fact holds for lists of every length.) -/
theorem c3_truncate_matches_spec_selection (l : List Product)
    (hlen : MAX_MANUFACTURERS < l.length) :
    truncateProducts l = specSelect MAX_MANUFACTURERS l :=
  truncate_eq_specSelect l

/-- Witness for `c3_truncate_matches_spec_selection` on twelve offers across
twelve manufacturers. -/
theorem c3_truncate_matches_spec_selection_witness :
    MAX_MANUFACTURERS < c3Twelve.length ∧
      truncateProducts c3Twelve = specSelect MAX_MANUFACTURERS c3Twelve ∧
      (truncateProducts c3Twelve).length = MAX_MANUFACTURERS :=
  ⟨by decide, c3_truncate_matches_spec_selection c3Twelve (by decide), by decide⟩

lemma foldl_pick_mem (med : ℚ) :
    ∀ (t : List Product) (b : Product), t.foldl (pickCloser med) b ∈ b :: t := by
  intro t
  induction t with
  | nil =>
    intro b
    exact List.mem_cons_self b []
  | cons a t2 IH =>
    intro b
    rw [List.foldl_cons]
    have hmem := IH (pickCloser med b a)
    rcases List.mem_cons.mp hmem with heq | hmem2
    · rw [heq]
      unfold pickCloser
      split
      · exact List.mem_cons_of_mem b (List.mem_cons_self a t2)
      · exact List.mem_cons_self b (a :: t2)
    · exact List.mem_cons_of_mem b (List.mem_cons_of_mem a hmem2)

lemma groupRep_mem (g : List Product) (h : g ≠ []) : groupRep g ∈ g := by
  match g with
  | b :: t =>
    simp only [groupRep]
    exact foldl_pick_mem _ t b

/-- Claim C10: every offer that survives `truncateProducts` — hence every
offer reaching prompt construction in `analyzeProducts` — has a strictly
positive price, so its rendered line uses the positive-price branch and the
`нет данных` (no data) branch of the price fragment is unreachable in the
pipeline. -/
theorem c10_prompt_price_positive (l : List Product) (p : Product)
    (h : p ∈ truncateProducts l) :
    0 < p.price ∧ priceFrag p = "Цена: ".toList ++ jsNumToStr p.price ++ " ₽".toList := by
  simp only [truncateProducts] at h
  have h2 := List.take_subset MAX_MANUFACTURERS _ h
  obtain ⟨e, he, hrep⟩ := List.mem_map.mp h2
  rw [buildGroups_eq] at he
  obtain ⟨k, hk, hke⟩ := List.mem_map.mp he
  subst hke
  simp only at hrep
  have hne : (l.filter (fun p => decide (0 < p.price))).filter
      (fun p => manufacturerKey p == k) ≠ [] := group_filter_ne_nil _ k hk
  have hmem := groupRep_mem _ hne
  rw [hrep] at hmem
  have hpl : p ∈ l.filter (fun p => decide (0 < p.price)) := List.mem_of_mem_filter hmem
  have hpos : 0 < p.price := of_decide_eq_true (List.mem_filter.mp hpl).2
  refine ⟨hpos, ?_⟩
  unfold priceFrag
  rw [if_pos hpos, List.append_assoc]

/-- Witness for `c10_prompt_price_positive` on a one-offer list. -/
theorem c10_prompt_price_positive_witness :
    mkOffer "m" 100 ∈ truncateProducts [mkOffer "m" 100] ∧
      0 < (mkOffer "m" 100).price ∧
      priceFrag (mkOffer "m" 100) =
        "Цена: ".toList ++ jsNumToStr (mkOffer "m" 100).price ++ " ₽".toList :=
  ⟨by decide, c10_prompt_price_positive [mkOffer "m" 100] (mkOffer "m" 100) (by decide)⟩

lemma length_dropWhile_le (p : Char → Bool) (l : Str) :
    (l.dropWhile p).length ≤ l.length := by
  induction l with
  | nil => simp
  | cons a l IH =>
    rw [List.dropWhile_cons]
    split
    · exact le_trans IH (by simp)
    · simp

lemma matchFenceJson_length {s : Str} (h : matchFenceJson s = true) : 7 ≤ s.length := by
  by_contra hlt
  push_neg at hlt
  have h6 : s[6]? = none := List.getElem?_eq_none (by omega)
  unfold matchFenceJson at h
  rw [h6] at h
  simp at h

lemma matchFence3_length {s : Str} (h : matchFence3 s = true) : 3 ≤ s.length := by
  by_contra hlt
  push_neg at hlt
  have h2 : s[2]? = none := List.getElem?_eq_none (by omega)
  unfold matchFence3 at h
  rw [h2] at h
  simp at h

lemma matchFenceJson_triple {s : Str} (h : matchFenceJson s = true) :
    hasTripleAt s 0 = true := by
  unfold matchFenceJson at h
  unfold hasTripleAt
  simp only [Bool.and_eq_true] at h ⊢
  exact ⟨⟨h.1.1.1.1.1.1, h.1.1.1.1.1.2⟩, h.1.1.1.1.2⟩

lemma matchFence3_triple {s : Str} (h : matchFence3 s = true) :
    hasTripleAt s 0 = true := by
  unfold matchFence3 at h
  unfold hasTripleAt
  simp only [Bool.and_eq_true] at h ⊢
  exact ⟨⟨h.1.1, h.1.2⟩, h.2⟩

lemma hasTripleAt_cons (c : Char) (s : Str) (i : Nat) :
    hasTripleAt (c :: s) (i + 1) = hasTripleAt s i := by
  unfold hasTripleAt
  simp [List.getElem?_cons_succ]

lemma stripFJ_fuel : ∀ (n f g : Nat) (s : Str),
    s.length ≤ n → s.length ≤ f → s.length ≤ g → stripFJ f s = stripFJ g s := by
  intro n
  induction n with
  | zero =>
    intro f g s hn _ _
    have : s = [] := List.length_eq_zero.mp (Nat.le_zero.mp hn)
    subst this
    cases f <;> cases g <;> rfl
  | succ n IH =>
    intro f g s hn hf hg
    cases s with
    | nil => cases f <;> cases g <;> rfl
    | cons c rest =>
      have hlen : (c :: rest).length = rest.length + 1 := rfl
      cases f with
      | zero => simp [hlen] at hf
      | succ f' =>
        cases g with
        | zero => simp [hlen] at hg
        | succ g' =>
          show stripFJ (f' + 1) (c :: rest) = stripFJ (g' + 1) (c :: rest)
          unfold stripFJ
          cases hm : matchFenceJson (c :: rest) with
          | true =>
            simp only [if_true]
            have h7 := matchFenceJson_length hm
            have hd : (((c :: rest).drop 7).dropWhile isJsWs).length ≤ rest.length - 6 := by
              have h1 := length_dropWhile_le isJsWs ((c :: rest).drop 7)
              rw [List.length_drop] at h1
              simp only [hlen] at h1
              omega
            exact IH f' g' _ (by simp only [hlen] at hn; omega)
              (by simp only [hlen] at hf; omega) (by simp only [hlen] at hg; omega)
          | false =>
            simp only [Bool.false_eq_true, if_false, List.cons.injEq, true_and]
            exact IH f' g' rest (by simp only [hlen] at hn; omega)
              (by simp only [hlen] at hf; omega) (by simp only [hlen] at hg; omega)

lemma stripFJ_fuel_eq {f : Nat} {s : Str} (h : s.length ≤ f) :
    stripFJ f s = stripFenceJson s :=
  stripFJ_fuel f f s.length s h h (le_refl _)

lemma stripF3_fuel : ∀ (n f g : Nat) (s : Str),
    s.length ≤ n → s.length ≤ f → s.length ≤ g → stripF3 f s = stripF3 g s := by
  intro n
  induction n with
  | zero =>
    intro f g s hn _ _
    have : s = [] := List.length_eq_zero.mp (Nat.le_zero.mp hn)
    subst this
    cases f <;> cases g <;> rfl
  | succ n IH =>
    intro f g s hn hf hg
    cases s with
    | nil => cases f <;> cases g <;> rfl
    | cons c rest =>
      have hlen : (c :: rest).length = rest.length + 1 := rfl
      cases f with
      | zero => simp [hlen] at hf
      | succ f' =>
        cases g with
        | zero => simp [hlen] at hg
        | succ g' =>
          show stripF3 (f' + 1) (c :: rest) = stripF3 (g' + 1) (c :: rest)
          unfold stripF3
          cases hm : matchFence3 (c :: rest) with
          | true =>
            simp only [if_true]
            have h3 := matchFence3_length hm
            have hd : (((c :: rest).drop 3).dropWhile isJsWs).length ≤ rest.length - 2 := by
              have h1 := length_dropWhile_le isJsWs ((c :: rest).drop 3)
              rw [List.length_drop] at h1
              simp only [hlen] at h1
              omega
            exact IH f' g' _ (by simp only [hlen] at hn; omega)
              (by simp only [hlen] at hf; omega) (by simp only [hlen] at hg; omega)
          | false =>
            simp only [Bool.false_eq_true, if_false, List.cons.injEq, true_and]
            exact IH f' g' rest (by simp only [hlen] at hn; omega)
              (by simp only [hlen] at hf; omega) (by simp only [hlen] at hg; omega)

lemma stripF3_fuel_eq {f : Nat} {s : Str} (h : s.length ≤ f) :
    stripF3 f s = stripFence3 s :=
  stripF3_fuel f f s.length s h h (le_refl _)

lemma stripFenceJson_step {s : Str} (h : matchFenceJson s = true) :
    stripFenceJson s = stripFenceJson ((s.drop 7).dropWhile isJsWs) := by
  have h7 := matchFenceJson_length h
  cases s with
  | nil => simp at h7
  | cons c rest =>
    show stripFJ (rest.length + 1) (c :: rest) = _
    unfold stripFJ
    rw [if_pos h]
    apply stripFJ_fuel_eq
    have h1 := length_dropWhile_le isJsWs ((c :: rest).drop 7)
    rw [List.length_drop] at h1
    simp only [List.length_cons] at h1
    omega

lemma stripFence3_step {s : Str} (h : matchFence3 s = true) :
    stripFence3 s = stripFence3 ((s.drop 3).dropWhile isJsWs) := by
  have h3 := matchFence3_length h
  cases s with
  | nil => simp at h3
  | cons c rest =>
    show stripF3 (rest.length + 1) (c :: rest) = _
    unfold stripF3
    rw [if_pos h]
    apply stripF3_fuel_eq
    have h1 := length_dropWhile_le isJsWs ((c :: rest).drop 3)
    rw [List.length_drop] at h1
    simp only [List.length_cons] at h1
    omega

lemma stripFenceJson_append :
    ∀ (t rest : Str), (∀ i, i < t.length → hasTripleAt (t ++ rest) i = false) →
      stripFenceJson (t ++ rest) = t ++ stripFenceJson rest := by
  intro t
  induction t with
  | nil => simp
  | cons c t' IH =>
    intro rest h
    have hm : matchFenceJson (c :: (t' ++ rest)) = false := by
      cases hmm : matchFenceJson (c :: (t' ++ rest)) with
      | false => rfl
      | true =>
        have := matchFenceJson_triple hmm
        have h0 := h 0 (by simp)
        rw [List.cons_append] at h0
        rw [h0] at this
        exact absurd this (by simp)
    show stripFJ ((t' ++ rest).length + 1) (c :: (t' ++ rest)) = _
    unfold stripFJ
    rw [hm]
    simp only [Bool.false_eq_true, if_false, List.cons_append, List.cons.injEq, true_and]
    exact IH rest (fun i hi => by
      have := h (i + 1) (by simp; omega)
      rw [List.cons_append, hasTripleAt_cons] at this
      exact this)

lemma stripFence3_append :
    ∀ (t rest : Str), (∀ i, i < t.length → hasTripleAt (t ++ rest) i = false) →
      stripFence3 (t ++ rest) = t ++ stripFence3 rest := by
  intro t
  induction t with
  | nil => simp
  | cons c t' IH =>
    intro rest h
    have hm : matchFence3 (c :: (t' ++ rest)) = false := by
      cases hmm : matchFence3 (c :: (t' ++ rest)) with
      | false => rfl
      | true =>
        have := matchFence3_triple hmm
        have h0 := h 0 (by simp)
        rw [List.cons_append] at h0
        rw [h0] at this
        exact absurd this (by simp)
    show stripF3 ((t' ++ rest).length + 1) (c :: (t' ++ rest)) = _
    unfold stripF3
    rw [hm]
    simp only [Bool.false_eq_true, if_false, List.cons_append, List.cons.injEq, true_and]
    exact IH rest (fun i hi => by
      have := h (i + 1) (by simp; omega)
      rw [List.cons_append, hasTripleAt_cons] at this
      exact this)

lemma and3_false_left (a b c2 : Bool) (h : a = false) : (a && b && c2) = false := by
  rw [h]
  simp

lemma and3_false_mid (a b c2 : Bool) (h : b = false) : (a && b && c2) = false := by
  rw [h]
  simp

lemma noTick_noTriple (t rest : Str) (h : tickChar ∉ t) :
    ∀ i, i < t.length → hasTripleAt (t ++ rest) i = false := by
  intro i hi
  unfold hasTripleAt
  have h1 : (t ++ rest)[i]? = t[i]? := List.getElem?_append_left hi
  rw [h1]
  cases hv : t[i]? with
  | none => simp
  | some c =>
    have hc : c ≠ tickChar := fun he => h (he ▸ List.getElem?_mem hv)
    simp [hc]

lemma lastBrace_noTriple (t rest : Str) (hlast : t.getLast? = some rbraceChar)
    (h : ∀ i, i < t.length → hasTripleAt t i = false) :
    ∀ i, i < t.length → hasTripleAt (t ++ rest) i = false := by
  intro i hi
  by_cases h3 : i + 2 < t.length
  · unfold hasTripleAt
    rw [List.getElem?_append_left hi, List.getElem?_append_left (by omega),
      List.getElem?_append_left h3]
    have := h i hi
    unfold hasTripleAt at this
    exact this
  · have hrb : t[t.length - 1]? = some rbraceChar := by
      rw [← List.getLast?_eq_getElem? t]
      exact hlast
    have hcase : t.length - 1 = i ∨ t.length - 1 = i + 1 := by omega
    unfold hasTripleAt
    rcases hcase with hc | hc
    · apply and3_false_left
      rw [← hc, List.getElem?_append_left (by omega), hrb]
      decide
    · apply and3_false_mid
      rw [← hc, List.getElem?_append_left (by omega), hrb]
      decide

lemma stripFenceJson_id (s : Str) (h : ∀ i, i < s.length → hasTripleAt s i = false) :
    stripFenceJson s = s := by
  have h2 := stripFenceJson_append s [] (by simpa using h)
  have h0 : stripFenceJson ([] : Str) = [] := rfl
  simpa [h0] using h2

lemma stripFence3_id (s : Str) (h : ∀ i, i < s.length → hasTripleAt s i = false) :
    stripFence3 s = s := by
  have h2 := stripFence3_append s [] (by simpa using h)
  have h0 : stripFence3 ([] : Str) = [] := rfl
  simpa [h0] using h2

lemma jsIndexOf_head {c : Char} {s : Str} {t0 : Str} (h : s = c :: t0) :
    jsIndexOf s c = some 0 := by
  subst h
  unfold jsIndexOf
  simp

lemma head_eq_cons {s : Str} {c : Char} (h : s.head? = some c) : ∃ t0, s = c :: t0 := by
  cases s with
  | nil => simp at h
  | cons a t0 =>
    simp only [List.head?_cons, Option.some.injEq] at h
    exact ⟨t0, by rw [h]⟩

/-- Claim C7 (amended): recovery is the identity on every input text that
parses as valid JSON and has the shape the repair stages preserve — trimmed,
no code-fence marker, starting with `{` and ending with `}`. (The
counterexample shows the unrestricted claim fails: valid JSON texts that are
not object-shaped can be mangled by the first-`{` slice or the last-`}` cut
and end in a `ParseError`.) -/
theorem c7_valid_object_text_identity (s : Str) (v : JSVal)
    (hhead : s.head? = some lbraceChar)
    (hlast : s.getLast? = some rbraceChar)
    (htriple : ∀ i, i < s.length → hasTripleAt s i = false)
    (htrim : trimJS s = s)
    (hparse : jsonParse s = some v) :
    recoverStr s = .ok v := by
  have hstrip : stripFences s = s := by
    unfold stripFences
    rw [stripFenceJson_id s htriple, stripFence3_id s htriple]
  have hslice : sliceFromBrace s = s := by
    obtain ⟨t0, ht0⟩ := head_eq_cons hhead
    unfold sliceFromBrace
    rw [jsIndexOf_head ht0]
    simp
  have hrepair : repairJson s = s := by
    unfold repairJson closeTrunc
    rw [hstrip, htrim, hslice]
    rw [show (s.getLast? == some rbraceChar) = true from by simp [hlast]]
    simp
  simp only [recoverStr, hrepair, hparse]

/-- Witness for `c7_valid_object_text_identity` at the serialized empty
response text. -/
theorem c7_valid_object_text_identity_witness :
    jsonParse c6Json = some c6Val ∧ recoverStr c6Json = .ok c6Val :=
  ⟨rfl, c7_valid_object_text_identity c6Json c6Val (by decide) (by decide)
    (by decide) (by decide) rfl⟩

/-- Counterexample to claim C7 as stated: the text `"}"` parses as valid JSON
(the one-character string `}`), contains no fence and is not truncated, yet
recovery mangles it (slice/cut heuristics) and ends in the explicit parse
error instead of returning the denoted structure. -/
theorem c7_valid_json_rejected :
    jsonParse c7Bad = some (.str [rbraceChar]) ∧ recoverStr c7Bad = .error parseErrMsg :=
  ⟨rfl, rfl⟩

lemma dropWhile_id_of_head (x : Str) (c : Char) (hh : x.head? = some c)
    (hc : isJsWs c = false) : x.dropWhile isJsWs = x := by
  obtain ⟨t0, ht0⟩ := head_eq_cons hh
  rw [ht0, List.dropWhile_cons, if_neg (by simp [hc])]

lemma jsIndexOf_cons (a : Char) (x : Str) (c : Char) :
    jsIndexOf (a :: x) c = if a = c then some 0 else (jsIndexOf x c).map (fun i => i + 1) :=
  rfl

lemma jsIndexOf_append_none (l₁ l₂ : Str) (c : Char) (h : jsIndexOf l₁ c = none) :
    jsIndexOf (l₁ ++ l₂) c = (jsIndexOf l₂ c).map (fun i => i + l₁.length) := by
  induction l₁ with
  | nil =>
    simp only [List.nil_append, List.length_nil]
    cases jsIndexOf l₂ c <;> simp
  | cons a l₁ IH =>
    rw [jsIndexOf_cons] at h
    rw [List.cons_append, jsIndexOf_cons]
    by_cases hac : a = c
    · rw [if_pos hac] at h
      exact absurd h (by simp)
    · rw [if_neg hac] at h ⊢
      have hnone : jsIndexOf l₁ c = none := by
        cases hx : jsIndexOf l₁ c with
        | none => rfl
        | some j =>
          rw [hx] at h
          simp at h
      rw [IH hnone]
      cases jsIndexOf l₂ c with
      | none => simp
      | some j =>
        simp only [Option.map_some', Option.some.injEq, List.length_cons]
        omega

/-- Claim C6 (amended): for every well-formed `AnalysisResponse` whose JSON
serialization `t` contains no code-fence marker (no backtick triple), the
content "Here is the answer:" + a ```` ```json ```` fence around `t` is
recovered to exactly the structure `t` denotes. (The counterexample shows the
unrestricted round-trip fails: fence markers inside a serialized string field
are stripped away, changing the recovered structure.) -/
theorem c6_roundtrip_fenced (t : Str) (v : JSVal)
    (hhead : t.head? = some lbraceChar)
    (hlast : t.getLast? = some rbraceChar)
    (htriple : ∀ i, i < t.length → hasTripleAt t i = false)
    (hparse : jsonParse t = some v)
    (hvalid : validAnalysisResponse v = true) :
    recoverStr (c6Wrap t) = .ok v := by
  obtain ⟨t0, ht0⟩ := head_eq_cons hhead
  have hw : c6Wrap t = c6Hdr ++ (c6FenceOpen ++ (t ++ c6FenceClose)) := by
    unfold c6Wrap
    rw [List.append_assoc, List.append_assoc]
  have k1 : stripFenceJson (c6Wrap t) = c6Hdr ++ (t ++ c6FenceClose) := by
    rw [hw, stripFenceJson_append c6Hdr _ (noTick_noTriple c6Hdr _ (by decide))]
    congr 1
    have hcons : c6FenceOpen ++ (t ++ c6FenceClose) =
        tickChar :: tickChar :: tickChar :: 'j' :: 's' :: 'o' :: 'n' :: '\n' ::
          (t ++ c6FenceClose) := rfl
    have hmj : matchFenceJson (tickChar :: tickChar :: tickChar :: 'j' :: 's' :: 'o' ::
        'n' :: '\n' :: (t ++ c6FenceClose)) = true := rfl
    rw [hcons, stripFenceJson_step hmj]
    have hdrop : ((tickChar :: tickChar :: tickChar :: 'j' :: 's' :: 'o' :: 'n' :: '\n' ::
        (t ++ c6FenceClose)).drop 7) = '\n' :: (t ++ c6FenceClose) := rfl
    rw [hdrop, List.dropWhile_cons, if_pos (by decide)]
    have hdw : (t ++ c6FenceClose).dropWhile isJsWs = t ++ c6FenceClose := by
      apply dropWhile_id_of_head _ lbraceChar _ (by decide)
      rw [ht0, List.cons_append]
      rfl
    rw [hdw, stripFenceJson_append t c6FenceClose (lastBrace_noTriple t _ hlast htriple)]
    congr 1
  have k2 : stripFence3 (c6Hdr ++ (t ++ c6FenceClose)) = c6Hdr ++ (t ++ ['\n']) := by
    rw [stripFence3_append c6Hdr _ (noTick_noTriple c6Hdr _ (by decide))]
    congr 1
    rw [stripFence3_append t c6FenceClose (lastBrace_noTriple t _ hlast htriple),
      show stripFence3 c6FenceClose = ['\n'] from by decide]
  have k3 : trimJS (c6Hdr ++ (t ++ ['\n'])) = c6Hdr ++ t := by
    unfold trimJS
    have hfr : (c6Hdr ++ (t ++ ['\n'])).dropWhile isJsWs = c6Hdr ++ (t ++ ['\n']) :=
      dropWhile_id_of_head _ 'H' rfl (by decide)
    rw [hfr]
    obtain ⟨tr, htr⟩ : ∃ tr, t.reverse = rbraceChar :: tr := by
      apply head_eq_cons
      rw [List.head?_reverse]
      exact hlast
    have hrev : (c6Hdr ++ (t ++ ['\n'])).reverse = '\n' :: (t.reverse ++ c6Hdr.reverse) := by
      rw [List.reverse_append c6Hdr (t ++ ['\n']), List.reverse_append t ['\n']]
      rfl
    rw [hrev, List.dropWhile_cons, if_pos (by decide)]
    have hdw2 : (t.reverse ++ c6Hdr.reverse).dropWhile isJsWs =
        t.reverse ++ c6Hdr.reverse := by
      apply dropWhile_id_of_head _ rbraceChar _ (by decide)
      rw [htr, List.cons_append]
      rfl
    rw [hdw2, List.reverse_append, List.reverse_reverse, List.reverse_reverse]
  have k4 : sliceFromBrace (c6Hdr ++ t) = t := by
    unfold sliceFromBrace
    rw [jsIndexOf_append_none c6Hdr t lbraceChar (by decide), jsIndexOf_head ht0]
    simp only [Option.map_some', Nat.zero_add]
    rw [if_pos (by decide)]
    exact List.drop_left c6Hdr t
  have k5 : closeTrunc t = t := by
    unfold closeTrunc
    rw [show (t.getLast? == some rbraceChar) = true from by simp [hlast]]
    simp
  have hrep : repairJson (c6Wrap t) = t := by
    unfold repairJson stripFences
    rw [k1, k2, k3, k4, k5]
  simp only [recoverStr, hrep, hparse]

/-- Witness for `c6_roundtrip_fenced`: the spec's own concrete example
content recovers to `{results: [], summary: "s", bestChoice: "b"}`. -/
theorem c6_roundtrip_fenced_witness :
    jsonParse c6Json = some c6Val ∧ validAnalysisResponse c6Val = true ∧
      recoverStr (c6Wrap c6Json) = .ok c6Val :=
  ⟨rfl, rfl, c6_roundtrip_fenced c6Json c6Val (by decide) (by decide) (by decide)
    rfl rfl⟩

/-- Counterexample to claim C6 as stated: a well-formed `AnalysisResponse`
whose `summary` contains a code-fence marker does not round-trip — the fence
stripping of the recovery pipeline deletes the backticks inside the JSON
string, so the recovered structure differs from the serialized one. -/
theorem c6_fence_in_summary :
    jsonParse c6TickJson = some c6TickVal ∧ validAnalysisResponse c6TickVal = true ∧
      recoverStr (c6Wrap c6TickJson) = .ok c6TickStripped ∧ c6TickStripped ≠ c6TickVal := by
  refine ⟨rfl, rfl, rfl, ?_⟩
  intro h
  unfold c6TickStripped c6TickVal at h
  simp only [JSVal.obj.injEq, List.cons.injEq, Prod.mk.injEq, JSVal.str.injEq] at h
  have := h.2.1.2
  exact absurd this (by decide)
